import Mathlib

/-!
Verification development for the OpenAQ acquisition-and-load pipeline
(`openaq_anomaly_prediction`): a shallow embedding, in Lean, of the
rate-limit-aware HTTP client, the pagination loop, the recursive retry
orchestrator, the BigQuery merge (upsert) semantics and the run-log
serializer, together with theorems settling the behavioural claims made
about them.

Sources embedded:
- `src/openaq_anomaly_prediction/load/openaq.py` (`OpenAQClient`,
  `AreaDownloader.fetch_sensor_measurements`,
  `AreaDownloader.download_sensors_data`,
  `AreaDownloader.download_data_with_retries`,
  `AreaDownloader.download_period_from_area`)
- `src/openaq_anomaly_prediction/load/gcp.py`
  (`BigQueryClient.generate_merge_query`, `BigQueryClient.upsert_data`)
- `src/openaq_anomaly_prediction/utils/helpers.py`
  (`_safe_serialize`, `save_logs`)
-/

namespace OpenAQPipeline

/-! ## 1. Rate-limited client (`OpenAQClient`, openaq.py lines 52-171)

State fields mirror `self.ratelimit_used / ratelimit_remaining /
ratelimit_reset`; all three are initialised to `-1` ("unknown, assume
fresh") and mutated only by `request_api`.  Durations are modelled as
the integers the code sleeps for; the actual `time.sleep` side effect is
represented by recording the slept duration in a list, in the order the
sleeps happen. -/

structure RateLimitState where
  ratelimit_used : Int
  ratelimit_remaining : Int
  ratelimit_reset : Int
deriving DecidableEq, Repr

/-- `OpenAQClient.__init__` / `clear_ratelimits`: all trackers start at `-1`. -/
def clear_ratelimits : RateLimitState :=
  { ratelimit_used := -1, ratelimit_remaining := -1, ratelimit_reset := -1 }

/-- `OpenAQClient.should_wait` (line 83-85):
`self.ratelimit_remaining >= 0 and self.ratelimit_remaining < 5`. -/
def should_wait (st : RateLimitState) : Bool :=
  st.ratelimit_remaining ≥ 0 && st.ratelimit_remaining < 5

/-- The pre-request block of `request_api` (lines 101-111): if
`should_wait`, sleep `ratelimit_reset + 1` seconds and then reset the
local state to the assumed-fresh quota `used=0, remaining=60, reset=60`.
Returns the sleeps performed and the state held when the HTTP request is
then issued. -/
def pre_request_wait (st : RateLimitState) : List Int × RateLimitState :=
  if should_wait st then
    ([st.ratelimit_reset + 1],
     { ratelimit_used := 0, ratelimit_remaining := 60, ratelimit_reset := 60 })
  else
    ([], st)

/-- Rate-limit headers of a 2xx response (`X-Ratelimit-Used` /
`X-Ratelimit-Remaining` / `X-Ratelimit-Reset`). -/
structure ResponseHeaders where
  used : Int
  remaining : Int
  reset : Int
deriving DecidableEq, Repr

/-- Outcome of the underlying `requests.get` + `raise_for_status`:
either a 2xx response carrying rate-limit headers, or an HTTP error with
its status code. -/
inductive HttpOutcome where
  | success (headers : ResponseHeaders)
  | failure (status : Nat)
deriving DecidableEq, Repr

/-- Observable trace of one `request_api` call: the sleeps performed (in
order), the final rate-limit state, and whether an `HTTPError` was
re-raised to the caller. -/
structure RequestTrace where
  sleeps : List Int
  state : RateLimitState
  raised : Bool
deriving DecidableEq, Repr

/-- `OpenAQClient.request_api` (lines 87-171), with the HTTP exchange
abstracted into `outcome`.  Pre-request wait first; on success the state
is overwritten from the response headers; on a 429 the client sleeps a
fixed 60s cooldown and re-raises; on any other HTTP error it re-raises
without the cooldown. -/
def request_api (st : RateLimitState) (outcome : HttpOutcome) : RequestTrace :=
  let pre := pre_request_wait st
  match outcome with
  | HttpOutcome.success h =>
      { sleeps := pre.1
        state := { ratelimit_used := h.used, ratelimit_remaining := h.remaining,
                   ratelimit_reset := h.reset }
        raised := false }
  | HttpOutcome.failure status =>
      if status = 429 then
        { sleeps := pre.1 ++ [60], state := pre.2, raised := true }
      else
        { sleeps := pre.1, state := pre.2, raised := true }

/-! ## 2. Pagination loop (`AreaDownloader.fetch_sensor_measurements`,
openaq.py lines 384-584)

The loop is embedded over the stream of pages the API would serve:
`pages` lists, in order, the response to the request for page 1, page 2,
and so on.  Each page carries `meta.found` (read only from the first
page) and its `results`.  The result is the collected record list
together with the number of page requests issued.  `none` means the
supplied stream was exhausted with the loop still running, i.e. the code
would go on to request a further page: the `while True` loop has no
page-count bound of its own. -/

structure Page (α : Type) where
  found : Int
  results : List α
deriving DecidableEq, Repr

/-- Body of the `while True` loop (lines 440-538).  `found_value` starts
at `-1` (= first request pending), is set from `meta.found` on the first
response, and the loop exits either immediately (`found == 0` on page 1)
or once `len(all_results) >= found_value`.  A page whose `results` are
empty is logged but still counts as an iteration (lines 493-498). -/
def fetchGo {α : Type} : List (Page α) → Int → List α → Nat → Option (List α × Nat)
  | [], _, _, _ => none
  | p :: rest, found_value, all_results, reqs =>
    -- 3.1 EXIT: found == 0 on the first request (lines 461-482);
    -- `found_value == -1` holds exactly on the first iteration.
    if found_value = -1 ∧ p.found = 0 then
      some ([], reqs + 1)
    else
      let fv := if found_value = -1 then p.found else found_value
      -- 4. append this page's records (the code skips the extend on an
      -- empty page, which appends nothing either way)
      let collected :=
        if p.results.length = 0 then all_results else all_results ++ p.results
      -- 5. EXIT: all measurements retrieved (line 525)
      if (collected.length : Int) ≥ fv then
        some (collected, reqs + 1)
      else
        fetchGo rest fv collected (reqs + 1)

/-- `fetch_sensor_measurements`, lines 436-440: `page = 1`,
`found_value = -1`, `all_results = []`. -/
def fetch_sensor_measurements {α : Type} (pages : List (Page α)) :
    Option (List α × Nat) :=
  fetchGo pages (-1) [] 0

/-! ## Theorems about the client and the pagination loop -/

/-- Helper: appending a page's records, with the code's empty-page skip,
is plain list append. -/
theorem collected_append {α : Type} (acc l : List α) :
    (if l.length = 0 then acc else acc ++ l) = acc ++ l := by
  by_cases h : l.length = 0
  · simp_all [List.length_eq_zero]
  · simp [h]

/-- Loop invariant for `fetchGo` once `found_value` is a known total
`N`: if the records still to come complete the running total to exactly
`N`, the loop stops with exactly `N` records. -/
theorem fetchGo_complete {α : Type} (N : Nat) :
    ∀ (pages : List (Page α)) (acc : List α) (reqs : Nat),
      acc.length + (pages.map fun q => q.results.length).sum = N →
      acc.length < N →
      ∃ recs reqs', fetchGo pages (N : Int) acc reqs = some (recs, reqs') ∧
        recs.length = N := by
  intro pages
  induction pages with
  | nil =>
      intro acc reqs hsum hlt
      simp at hsum
      omega
  | cons p rest ih =>
      intro acc reqs hsum hlt
      have hne : ¬((N : Int) = -1 ∧ p.found = 0) := by
        intro h
        omega
      rw [fetchGo, if_neg hne]
      simp only [collected_append]
      have hfv : (if (N : Int) = -1 then p.found else (N : Int)) = (N : Int) := by
        rw [if_neg (by omega)]
      rw [hfv]
      simp only [List.map_cons, List.sum_cons] at hsum
      by_cases hge : ((acc ++ p.results).length : Int) ≥ (N : Int)
      · rw [if_pos hge]
        refine ⟨acc ++ p.results, reqs + 1, rfl, ?_⟩
        have hle : (acc ++ p.results).length ≤ N := by
          simp only [List.length_append]
          omega
        have : N ≤ (acc ++ p.results).length := by exact_mod_cast hge
        omega
      · rw [if_neg hge]
        apply ih
        · simp only [List.length_append]
          omega
        · have : ¬(N ≤ (acc ++ p.results).length) := by
            intro h
            exact hge (by exact_mod_cast h)
          omega

/-- C1, pagination completeness.  Part 1: when the first page reports
`found = N` and the records of the served pages sum to `N`, the fetch
returns exactly `N` records.  Part 2: when the first page reports
`found = 0`, the fetch returns zero records having issued exactly one
page request. -/
theorem fetch_pagination_complete {α : Type} (p : Page α) (rest : List (Page α)) :
    (∀ N : Nat, p.found = (N : Int) →
      ((p :: rest).map fun q => q.results.length).sum = N →
      ∃ recs reqs, fetch_sensor_measurements (p :: rest) = some (recs, reqs) ∧
        recs.length = N) ∧
    (p.found = 0 →
      fetch_sensor_measurements (p :: rest) = some ([], 1)) := by
  constructor
  · intro N hfound hsum
    rcases Nat.eq_zero_or_pos N with hN | hN
    · subst hN
      refine ⟨[], 1, ?_, rfl⟩
      rw [fetch_sensor_measurements, fetchGo, if_pos ⟨rfl, by simpa using hfound⟩]
    · rw [fetch_sensor_measurements, fetchGo,
        if_neg (by
          intro h
          rw [h.2] at hfound
          omega)]
      have hfv : (if ((-1 : Int) = -1) then p.found else (-1 : Int)) = (N : Int) := by
        rw [if_pos rfl, hfound]
      rw [hfv]
      have hcoll :
          (if p.results.length = 0 then ([] : List α) else [] ++ p.results) =
            p.results := by
        rw [collected_append, List.nil_append]
      rw [hcoll]
      simp only [List.map_cons, List.sum_cons] at hsum
      by_cases hge : ((p.results.length : Int) ≥ (N : Int))
      · rw [if_pos hge]
        refine ⟨p.results, 0 + 1, rfl, ?_⟩
        have h1 : N ≤ p.results.length := by exact_mod_cast hge
        omega
      · rw [if_neg hge]
        apply fetchGo_complete
        · omega
        · have : ¬(N ≤ p.results.length) := by
            intro h
            exact hge (by exact_mod_cast h)
          omega
  · intro h0
    rw [fetch_sensor_measurements, fetchGo, if_pos ⟨rfl, h0⟩]

/-- Witness for `fetch_pagination_complete` at a concrete input: two
pages carrying 2 + 1 records with `found = 3`, and a `found = 0` first
page. -/
theorem fetch_pagination_complete_witness :
    (∃ recs reqs,
      fetch_sensor_measurements
        [(⟨3, [10, 11]⟩ : Page Nat), ⟨3, [12]⟩] = some (recs, reqs) ∧
      recs.length = 3) ∧
    fetch_sensor_measurements [(⟨0, []⟩ : Page Nat)] = some ([], 1) :=
  ⟨(fetch_pagination_complete ⟨3, [10, 11]⟩ [⟨3, [12]⟩]).1 3 rfl (by decide),
   (fetch_pagination_complete ⟨0, []⟩ []).2 rfl⟩

/-- A page stream on which `found` is never satisfied: every page
reports one record available and serves none. -/
def sparsePage : Page Unit := { found := 1, results := [] }

theorem fetchGo_sparse_none :
    ∀ (M : Nat) (reqs : Nat),
      fetchGo (List.replicate M sparsePage) (1 : Int) [] reqs = none := by
  intro M
  induction M with
  | zero => intro reqs; rfl
  | succ m ih =>
      intro reqs
      rw [List.replicate_succ, fetchGo, if_neg (by intro h; exact absurd h.1 (by decide))]
      simp only [sparsePage]
      rw [if_neg (by decide)]
      simpa using ih (reqs + 1)

/-- C7: the pagination `while True` loop has no maximum page count.  On
the sparse stream above, however many pages `M` the API serves, the loop
is still running after consuming all of them (`none` = it would request
page `M + 1`): there is no configurable page bound at which it stops
with a detectable error. -/
theorem fetch_no_page_bound (M : Nat) :
    fetch_sensor_measurements (List.replicate M sparsePage) = none := by
  cases M with
  | zero => rfl
  | succ m =>
      rw [fetch_sensor_measurements, List.replicate_succ, fetchGo,
        if_neg (by intro h; exact absurd h.2 (by decide))]
      simp only [sparsePage]
      rw [if_neg (by decide)]
      simpa using fetchGo_sparse_none m 1

/-- C6, rate-limit wait invariant.  With `0 ≤ remaining < 5` (the
watermark) the client sleeps `reset + 1` before issuing the request and
issues it with the assumed-fresh state `(used=0, remaining=60,
reset=60)`; with `remaining ≥ 5` or the unknown default `-1` it issues
the request with no pre-sleep and unchanged state.  In every case the
sleeps of the full `request_api` call start with the pre-request
sleeps. -/
theorem request_rate_limit_wait (st : RateLimitState) :
    (0 ≤ st.ratelimit_remaining → st.ratelimit_remaining < 5 →
      pre_request_wait st =
        ([st.ratelimit_reset + 1],
         { ratelimit_used := 0, ratelimit_remaining := 60, ratelimit_reset := 60 })) ∧
    (5 ≤ st.ratelimit_remaining ∨ st.ratelimit_remaining = -1 →
      pre_request_wait st = ([], st)) ∧
    (∀ outcome : HttpOutcome, ∃ post,
      (request_api st outcome).sleeps = (pre_request_wait st).1 ++ post) := by
  refine ⟨?_, ?_, ?_⟩
  · intro h0 h5
    rw [pre_request_wait, if_pos ?_]
    simp only [should_wait, Bool.and_eq_true, decide_eq_true_eq]
    exact ⟨h0, h5⟩
  · intro h
    rw [pre_request_wait, if_neg ?_]
    simp only [should_wait, Bool.and_eq_true, decide_eq_true_eq, not_and, not_lt]
    intro h0
    rcases h with h | h
    · exact h
    · omega
  · intro outcome
    cases outcome with
    | success h => exact ⟨[], by simp [request_api]⟩
    | failure status =>
        by_cases h429 : status = 429
        · exact ⟨[60], by simp [request_api, h429]⟩
        · exact ⟨[], by simp [request_api, h429]⟩

/-- Witness for `request_rate_limit_wait`: at `remaining = 3` the client
pre-sleeps `reset + 1 = 8`; at `remaining = 10` it does not. -/
theorem request_rate_limit_wait_witness :
    pre_request_wait ⟨2, 3, 7⟩ = ([8], ⟨0, 60, 60⟩) ∧
    pre_request_wait ⟨2, 10, 7⟩ = ([], ⟨2, 10, 7⟩) :=
  ⟨(request_rate_limit_wait ⟨2, 3, 7⟩).1 (by decide) (by decide),
   (request_rate_limit_wait ⟨2, 10, 7⟩).2.1 (Or.inl (by decide))⟩

/-! ## 3. Retry orchestrator (`AreaDownloader.download_sensors_data` and
`AreaDownloader.download_data_with_retries`, openaq.py lines 586-826)

A single entity fetch (`fetch_sensor_measurements` as called from the
batch loop) is abstracted into a `FetchResult`: the fetch either returns
a dataframe with `n` rows, raises `requests.exceptions.HTTPError` with a
status code, or raises some other exception.  The orchestrator is
deterministic given the per-attempt outcomes, so it is embedded over an
oracle `fetch : Nat → Nat → FetchResult` giving the outcome of fetching
a sensor id at a given retry depth. -/

inductive FetchResult where
  | ok (rows : Nat)
  | httpError (status : Nat)
  | exc
deriving DecidableEq, Repr

/-- The parquet artifact name `f"{run_id}_sensor_{sensor_id}.raw.parquet"`
appended to `saved` (line 645-646), keyed by run id and sensor id. -/
structure ParquetFilename where
  run_id : String
  sensor_id : Nat
deriving DecidableEq, Repr

/-- The `type` field of an error entry: `f"HTTPError{status}"` for an
`HTTPError`, `"Exception"` otherwise (lines 657, 671). -/
inductive ErrKind where
  | http (status : Nat)
  | exception
deriving DecidableEq, Repr

/-- One entry of the `errors` list built by `download_sensors_data`
(lines 651-674).  The Python dict also stores the raw exception object
under `"error"`; its serialization is modelled separately in section
5. -/
structure SensorError where
  run_id : String
  sensor_id : Nat
  datetime_from : String
  datetime_to : String
  etype : ErrKind
deriving DecidableEq, Repr

/-- The dict `{"total": ..., "saved": ..., "errors": ...}` returned by
`download_sensors_data` (line 686). -/
structure RunResult where
  total : Nat
  saved : List ParquetFilename
  errors : List SensorError
deriving DecidableEq, Repr

/-- The `for i, sensor_id in enumerate(sensors_id)` loop of
`download_sensors_data` (lines 623-674): fetch each sensor in input
order; a successful fetch with at least one row appends the parquet
filename to `saved`; an `HTTPError` appends an `HTTPError<status>`
error entry; any other exception appends an `Exception` entry.  The
Python loop appends to the end of `saved` / `errors`; consing onto the
recursive tail yields the same lists. -/
def downloadSensorsLoop (fetch : Nat → FetchResult)
    (run_id datetime_from datetime_to : String) :
    List Nat → List ParquetFilename × List SensorError
  | [] => ([], [])
  | sid :: rest =>
    let tail := downloadSensorsLoop fetch run_id datetime_from datetime_to rest
    match fetch sid with
    | FetchResult.ok n =>
        (if n > 0 then ⟨run_id, sid⟩ :: tail.1 else tail.1, tail.2)
    | FetchResult.httpError status =>
        (tail.1,
         ⟨run_id, sid, datetime_from, datetime_to, ErrKind.http status⟩ :: tail.2)
    | FetchResult.exc =>
        (tail.1,
         ⟨run_id, sid, datetime_from, datetime_to, ErrKind.exception⟩ :: tail.2)

/-- `AreaDownloader.download_sensors_data` (lines 586-686), with logging
and the disk/GCS side effects dropped.  `total = len(sensors_id)`. -/
def download_sensors_data (fetch : Nat → FetchResult)
    (run_id datetime_from datetime_to : String) (sensors_id : List Nat) :
    RunResult :=
  let p := downloadSensorsLoop fetch run_id datetime_from datetime_to sensors_id
  { total := sensors_id.length, saved := p.1, errors := p.2 }

/-- One per-depth log dict appended to `logs` (lines 731-743); `status`
is `"downloaded"`, later flipped to `"retrying"` or `"aborted"` (lines
752, 760). -/
structure LogEntry where
  run_id : String
  status : String
  saved : List ParquetFilename
  errors : List SensorError
  retries : Nat
deriving DecidableEq, Repr

/-- Default entry used only to read the last element of a (provably
nonempty) log list, mirroring Python's `concatenated_logs[-1]`. -/
def dummyLog : LogEntry :=
  { run_id := "", status := "", saved := [], errors := [], retries := 0 }

/-- The recursive downloading core of `download_data_with_retries`
(steps 1-2, lines 718-783), returning `concatenated_logs`: one log
entry per recursion depth, oldest first.  At each depth the batch is
downloaded; with errors left and `retries >= max_retries` the depth is
marked `aborted` and recursion stops; with errors left and retries
remaining, the depth is marked `retrying` and exactly the errored
sensor ids (`[error["sensor_id"] for error in errors]`, in order) are
retried at depth `retries + 1`. -/
def downloadLogs (fetch : Nat → Nat → FetchResult)
    (run_id datetime_from datetime_to : String) (max_retries : Nat) :
    (retries : Nat) → (sensors_id : List Nat) → List LogEntry
  | retries, sensors_id =>
    let run := download_sensors_data (fetch retries) run_id datetime_from
      datetime_to sensors_id
    let entry : LogEntry :=
      { run_id := run_id, status := "downloaded", saved := run.saved,
        errors := run.errors, retries := retries }
    if 0 < run.errors.length then
      if h : max_retries ≤ retries then
        [{ entry with status := "aborted" }]
      else
        { entry with status := "retrying" } ::
          downloadLogs fetch run_id datetime_from datetime_to max_retries
            (retries + 1) (run.errors.map SensorError.sensor_id)
    else
      [entry]
termination_by retries _ => max_retries - retries
decreasing_by omega

/-- The single summary dict built at the recursion root (`retries == 0`,
lines 788-824): totals over `concatenated_logs`, `status = "aborted"`
iff the last depth aborted, `total_retries` = number of depths whose
status is `"retrying"`.  Duration/timestamp bookkeeping fields are
dropped. -/
structure RunSummary where
  run_id : String
  status : String
  datetime_from : String
  datetime_to : String
  errors : Nat
  saved : Nat
  retries : Nat
  sensors : List Nat
  logs : List LogEntry
deriving DecidableEq, Repr

/-- `AreaDownloader.download_data_with_retries` called at the root
(`retries = 0`): runs the recursive download and rolls the full log up
into one summary record, returned as a one-element list (line 806). -/
def download_data_with_retries (fetch : Nat → Nat → FetchResult)
    (sensors_id : List Nat) (datetime_from datetime_to run_id : String)
    (max_retries : Nat) : List RunSummary :=
  let concatenated_logs :=
    downloadLogs fetch run_id datetime_from datetime_to max_retries 0 sensors_id
  let total_errors := (concatenated_logs.map fun run => run.errors.length).sum
  let total_saved := (concatenated_logs.map fun run => run.saved.length).sum
  let total_retries :=
    (concatenated_logs.filter fun run => run.status = "retrying").length
  let run_status :=
    if (concatenated_logs.getLastD dummyLog).status ≠ "aborted" then "downloaded"
    else "aborted"
  [{ run_id := run_id, status := run_status, datetime_from := datetime_from,
     datetime_to := datetime_to, errors := total_errors, saved := total_saved,
     retries := total_retries, sensors := sensors_id,
     logs := concatenated_logs }]

/-- The status finalization in `download_period_from_area` (lines
944-953): an `"aborted"` run stays `"aborted"`, anything else becomes
`"completed"`. -/
def finalize_period_status (period_logs : RunSummary) : RunSummary :=
  if period_logs.status = "aborted" then period_logs
  else { period_logs with status := "completed" }

/-! ## Lemmas about the batch loop -/

/-- The saved ids and the errored ids of one batch are order-preserving
sublists of the input sensor list: the loop walks the input in order and
appends. -/
theorem downloadSensorsLoop_sublist (fetch1 : Nat → FetchResult)
    (rid dfrom dto : String) :
    ∀ l : List Nat,
      ((downloadSensorsLoop fetch1 rid dfrom dto l).1.map
        ParquetFilename.sensor_id).Sublist l ∧
      ((downloadSensorsLoop fetch1 rid dfrom dto l).2.map
        SensorError.sensor_id).Sublist l := by
  intro l
  induction l with
  | nil => simp [downloadSensorsLoop]
  | cons sid rest ih =>
      rw [downloadSensorsLoop]
      rcases hf : fetch1 sid with n | status
      · by_cases hn : n > 0
        · refine ⟨?_, ?_⟩
          · simp only [hf, if_pos hn, List.map_cons]
            exact List.Sublist.cons₂ sid ih.1
          · simp only [hf, if_pos hn]
            exact List.Sublist.cons sid ih.2
        · refine ⟨?_, ?_⟩
          · simp only [hf, if_neg hn]
            exact List.Sublist.cons sid ih.1
          · simp only [hf, if_neg hn]
            exact List.Sublist.cons sid ih.2
      · refine ⟨?_, ?_⟩
        · simp only [hf]
          exact List.Sublist.cons sid ih.1
        · simp only [hf, List.map_cons]
          exact List.Sublist.cons₂ sid ih.2
      · refine ⟨?_, ?_⟩
        · simp only [hf]
          exact List.Sublist.cons sid ih.1
        · simp only [hf, List.map_cons]
          exact List.Sublist.cons₂ sid ih.2

/-- When every fetch fails, a batch saves nothing and errors exactly the
input list, in order. -/
theorem downloadSensorsLoop_allfail (fetch1 : Nat → FetchResult)
    (rid dfrom dto : String) (hf : ∀ s n, fetch1 s ≠ FetchResult.ok n) :
    ∀ l : List Nat,
      (downloadSensorsLoop fetch1 rid dfrom dto l).1 = [] ∧
      ((downloadSensorsLoop fetch1 rid dfrom dto l).2.map
        SensorError.sensor_id) = l := by
  intro l
  induction l with
  | nil => simp [downloadSensorsLoop]
  | cons sid rest ih =>
      rw [downloadSensorsLoop]
      rcases h : fetch1 sid with n | status
      · exact absurd h (hf sid n)
      · simpa using ih
      · simpa using ih

/-- When every fetch succeeds, a batch errors nothing. -/
theorem downloadSensorsLoop_noErrors (fetch1 : Nat → FetchResult)
    (rid dfrom dto : String) (hf : ∀ s, ∃ n, fetch1 s = FetchResult.ok n) :
    ∀ l : List Nat, (downloadSensorsLoop fetch1 rid dfrom dto l).2 = [] := by
  intro l
  induction l with
  | nil => simp [downloadSensorsLoop]
  | cons sid rest ih =>
      rw [downloadSensorsLoop]
      obtain ⟨n, hn⟩ := hf sid
      rw [hn]
      simpa using ih

/-- Accounting: every input sensor lands in `saved`, in `errors`, or in
the silent skip bucket of successful fetches with zero rows. -/
theorem downloadSensorsLoop_count (fetch1 : Nat → FetchResult)
    (rid dfrom dto : String) :
    ∀ l : List Nat,
      (downloadSensorsLoop fetch1 rid dfrom dto l).1.length +
        (downloadSensorsLoop fetch1 rid dfrom dto l).2.length +
        l.countP (fun s => decide (fetch1 s = FetchResult.ok 0)) = l.length := by
  intro l
  induction l with
  | nil => simp [downloadSensorsLoop]
  | cons sid rest ih =>
      rw [downloadSensorsLoop, List.countP_cons]
      rcases h : fetch1 sid with n | status
      · rcases n with _ | m
        · simp [h]
          omega
        · simp [h]
          omega
      · simp [h]
        omega
      · simp [h]
        omega

/-- A sensor whose fetch succeeds with zero rows appears in neither
`saved` nor `errors`. -/
theorem downloadSensorsLoop_skip_not_mem (fetch1 : Nat → FetchResult)
    (rid dfrom dto : String) (s : Nat) (hs : fetch1 s = FetchResult.ok 0) :
    ∀ l : List Nat,
      s ∉ ((downloadSensorsLoop fetch1 rid dfrom dto l).1.map
        ParquetFilename.sensor_id) ∧
      s ∉ ((downloadSensorsLoop fetch1 rid dfrom dto l).2.map
        SensorError.sensor_id) := by
  intro l
  induction l with
  | nil => simp [downloadSensorsLoop]
  | cons sid rest ih =>
      rw [downloadSensorsLoop]
      rcases h : fetch1 sid with n | status
      · by_cases hn : n > 0
        · have hne : sid ≠ s := by
            intro hc
            rw [hc, hs] at h
            cases h
            omega
          refine ⟨?_, ?_⟩
          · intro hc
            simp only [h, if_pos hn, List.map_cons, List.mem_cons] at hc
            rcases hc with hc | hc
            · exact hne hc.symm
            · exact ih.1 hc
          · intro hc
            simp only [h, if_pos hn] at hc
            exact ih.2 hc
        · refine ⟨?_, ?_⟩
          · intro hc
            simp only [h, if_neg hn] at hc
            exact ih.1 hc
          · intro hc
            simp only [h, if_neg hn] at hc
            exact ih.2 hc
      · have hne : sid ≠ s := by
          intro hc
          rw [hc, hs] at h
          cases h
        refine ⟨?_, ?_⟩
        · intro hc
          simp only [h] at hc
          exact ih.1 hc
        · intro hc
          simp only [h, List.map_cons, List.mem_cons] at hc
          rcases hc with hc | hc
          · exact hne hc.symm
          · exact ih.2 hc
      · have hne : sid ≠ s := by
          intro hc
          rw [hc, hs] at h
          cases h
        refine ⟨?_, ?_⟩
        · intro hc
          simp only [h] at hc
          exact ih.1 hc
        · intro hc
          simp only [h, List.map_cons, List.mem_cons] at hc
          rcases hc with hc | hc
          · exact hne hc.symm
          · exact ih.2 hc

/-- Every saved artifact comes from a sensor whose fetch succeeded with
at least one row, and carries this run's id. -/
theorem downloadSensorsLoop_saved_spec (fetch1 : Nat → FetchResult)
    (rid dfrom dto : String) :
    ∀ l : List Nat, ∀ a ∈ (downloadSensorsLoop fetch1 rid dfrom dto l).1,
      a.run_id = rid ∧ ∃ n, fetch1 a.sensor_id = FetchResult.ok n ∧ 0 < n := by
  intro l
  induction l with
  | nil => simp [downloadSensorsLoop]
  | cons sid rest ih =>
      intro a ha
      rw [downloadSensorsLoop] at ha
      rcases h : fetch1 sid with n | status
      · by_cases hn : n > 0
        · simp only [h, if_pos hn, List.mem_cons] at ha
          rcases ha with rfl | ha
          · exact ⟨rfl, n, h, hn⟩
          · exact ih a ha
        · simp only [h, if_neg hn] at ha
          exact ih a ha
      · simp only [h] at ha
        exact ih a ha
      · simp only [h] at ha
        exact ih a ha


/-! ## Lemmas about the recursion of `download_data_with_retries` -/

/-- Unfolding: the aborted branch (errors left, `retries >= max_retries`,
lines 751-756). -/
theorem downloadLogs_abort (fetchd : Nat → Nat → FetchResult)
    (rid dfrom dto : String) (k r : Nat) (l : List Nat)
    (h1 : 0 < (download_sensors_data (fetchd r) rid dfrom dto l).errors.length)
    (h2 : k ≤ r) :
    downloadLogs fetchd rid dfrom dto k r l =
      [{ run_id := rid, status := "aborted",
         saved := (download_sensors_data (fetchd r) rid dfrom dto l).saved,
         errors := (download_sensors_data (fetchd r) rid dfrom dto l).errors,
         retries := r }] := by
  rw [downloadLogs]
  simp only [h1, if_true, dif_pos h2]

/-- Unfolding: the retrying branch (errors left, retries remaining,
lines 758-781): exactly the errored sensor ids are handed to depth
`r + 1`. -/
theorem downloadLogs_retry (fetchd : Nat → Nat → FetchResult)
    (rid dfrom dto : String) (k r : Nat) (l : List Nat)
    (h1 : 0 < (download_sensors_data (fetchd r) rid dfrom dto l).errors.length)
    (h2 : ¬k ≤ r) :
    downloadLogs fetchd rid dfrom dto k r l =
      { run_id := rid, status := "retrying",
        saved := (download_sensors_data (fetchd r) rid dfrom dto l).saved,
        errors := (download_sensors_data (fetchd r) rid dfrom dto l).errors,
        retries := r } ::
        downloadLogs fetchd rid dfrom dto k (r + 1)
          ((download_sensors_data (fetchd r) rid dfrom dto l).errors.map
            SensorError.sensor_id) := by
  rw [downloadLogs]
  simp only [h1, if_true, dif_neg h2]

/-- Unfolding: the error-free branch (the depth's status stays
`"downloaded"` and recursion stops). -/
theorem downloadLogs_done (fetchd : Nat → Nat → FetchResult)
    (rid dfrom dto : String) (k r : Nat) (l : List Nat)
    (h1 : ¬0 < (download_sensors_data (fetchd r) rid dfrom dto l).errors.length) :
    downloadLogs fetchd rid dfrom dto k r l =
      [{ run_id := rid, status := "downloaded",
         saved := (download_sensors_data (fetchd r) rid dfrom dto l).saved,
         errors := (download_sensors_data (fetchd r) rid dfrom dto l).errors,
         retries := r }] := by
  rw [downloadLogs]
  simp only [h1, if_false]

/-- The log list is never empty: every call contributes its own entry. -/
theorem downloadLogs_ne_nil (fetchd : Nat → Nat → FetchResult)
    (rid dfrom dto : String) (k : Nat) (r : Nat) (l : List Nat) :
    downloadLogs fetchd rid dfrom dto k r l ≠ [] := by
  by_cases h1 : 0 < (download_sensors_data (fetchd r) rid dfrom dto l).errors.length
  · by_cases h2 : k ≤ r
    · rw [downloadLogs_abort fetchd rid dfrom dto k r l h1 h2]
      simp
    · rw [downloadLogs_retry fetchd rid dfrom dto k r l h1 h2]
      simp
  · rw [downloadLogs_done fetchd rid dfrom dto k r l h1]
    simp

/-- If the list is nonempty, `getLastD` ignores its default. -/
theorem getLastD_of_ne_nil {α : Type} {l : List α} (h : l ≠ []) (a b : α) :
    l.getLastD a = l.getLastD b := by
  rw [List.getLastD_eq_getLast?, List.getLastD_eq_getLast?]
  rcases hl : l.getLast? with _ | x
  · exact absurd (List.getLast?_eq_none_iff.mp hl) h
  · rfl

/-- One call produces one entry per visited retry depth, and at most
`max_retries - retries + 1` depths are visited. -/
theorem downloadLogs_length_le (fetchd : Nat → Nat → FetchResult)
    (rid dfrom dto : String) (k : Nat) :
    ∀ (r : Nat) (l : List Nat),
      (downloadLogs fetchd rid dfrom dto k r l).length ≤ (k - r) + 1 := by
  suffices H : ∀ (n r : Nat) (l : List Nat), k - r ≤ n →
      (downloadLogs fetchd rid dfrom dto k r l).length ≤ (k - r) + 1 by
    exact fun r l => H (k - r) r l le_rfl
  intro n
  induction n with
  | zero =>
      intro r l hn
      by_cases h1 : 0 < (download_sensors_data (fetchd r) rid dfrom dto l).errors.length
      · rw [downloadLogs_abort fetchd rid dfrom dto k r l h1 (by omega)]
        simp
      · rw [downloadLogs_done fetchd rid dfrom dto k r l h1]
        simp
  | succ m ih =>
      intro r l hn
      by_cases h1 : 0 < (download_sensors_data (fetchd r) rid dfrom dto l).errors.length
      · by_cases h2 : k ≤ r
        · rw [downloadLogs_abort fetchd rid dfrom dto k r l h1 h2]
          simp
        · rw [downloadLogs_retry fetchd rid dfrom dto k r l h1 h2]
          have := ih (r + 1)
            ((download_sensors_data (fetchd r) rid dfrom dto l).errors.map
              SensorError.sensor_id) (by omega)
          simp only [List.length_cons]
          omega
      · rw [downloadLogs_done fetchd rid dfrom dto k r l h1]
        simp

/-- The head entry of a call records exactly the batch outcome of the
input list at the current depth. -/
theorem downloadLogs_head (fetchd : Nat → Nat → FetchResult)
    (rid dfrom dto : String) (k : Nat) (r : Nat) (l : List Nat) :
    ∃ st tail,
      downloadLogs fetchd rid dfrom dto k r l =
        ({ run_id := rid, status := st,
           saved := (download_sensors_data (fetchd r) rid dfrom dto l).saved,
           errors := (download_sensors_data (fetchd r) rid dfrom dto l).errors,
           retries := r } : LogEntry) :: tail := by
  by_cases h1 : 0 < (download_sensors_data (fetchd r) rid dfrom dto l).errors.length
  · by_cases h2 : k ≤ r
    · exact ⟨"aborted", [], downloadLogs_abort fetchd rid dfrom dto k r l h1 h2⟩
    · exact ⟨"retrying", _, downloadLogs_retry fetchd rid dfrom dto k r l h1 h2⟩
  · exact ⟨"downloaded", [], downloadLogs_done fetchd rid dfrom dto k r l h1⟩

/-- Every entry of a call's log has saved ids and errored ids that are
order-preserving sublists of the call's input list. -/
theorem downloadLogs_entry_sublist (fetchd : Nat → Nat → FetchResult)
    (rid dfrom dto : String) (k : Nat) :
    ∀ (r : Nat) (l : List Nat),
      ∀ e ∈ downloadLogs fetchd rid dfrom dto k r l,
        (e.saved.map ParquetFilename.sensor_id).Sublist l ∧
        (e.errors.map SensorError.sensor_id).Sublist l := by
  suffices H : ∀ (n r : Nat) (l : List Nat), k - r ≤ n →
      ∀ e ∈ downloadLogs fetchd rid dfrom dto k r l,
        (e.saved.map ParquetFilename.sensor_id).Sublist l ∧
        (e.errors.map SensorError.sensor_id).Sublist l by
    exact fun r l => H (k - r) r l le_rfl
  intro n
  induction n with
  | zero =>
      intro r l hn e he
      by_cases h1 : 0 < (download_sensors_data (fetchd r) rid dfrom dto l).errors.length
      · rw [downloadLogs_abort fetchd rid dfrom dto k r l h1 (by omega),
          List.mem_singleton] at he
        subst he
        exact downloadSensorsLoop_sublist (fetchd r) rid dfrom dto l
      · rw [downloadLogs_done fetchd rid dfrom dto k r l h1,
          List.mem_singleton] at he
        subst he
        exact downloadSensorsLoop_sublist (fetchd r) rid dfrom dto l
  | succ m ih =>
      intro r l hn e he
      by_cases h1 : 0 < (download_sensors_data (fetchd r) rid dfrom dto l).errors.length
      · by_cases h2 : k ≤ r
        · rw [downloadLogs_abort fetchd rid dfrom dto k r l h1 h2,
            List.mem_singleton] at he
          subst he
          exact downloadSensorsLoop_sublist (fetchd r) rid dfrom dto l
        · rw [downloadLogs_retry fetchd rid dfrom dto k r l h1 h2,
            List.mem_cons] at he
          rcases he with rfl | he
          · exact downloadSensorsLoop_sublist (fetchd r) rid dfrom dto l
          · have hsub := (downloadSensorsLoop_sublist (fetchd r) rid dfrom dto l).2
            have hrec := ih (r + 1)
              ((download_sensors_data (fetchd r) rid dfrom dto l).errors.map
                SensorError.sensor_id) (by omega) e he
            exact ⟨hrec.1.trans hsub, hrec.2.trans hsub⟩
      · rw [downloadLogs_done fetchd rid dfrom dto k r l h1,
          List.mem_singleton] at he
        subst he
        exact downloadSensorsLoop_sublist (fetchd r) rid dfrom dto l

/-- Consecutive depths shrink: the ids errored at depth `i + 1` are an
order-preserving sublist of the ids errored at depth `i`. -/
theorem downloadLogs_consecutive (fetchd : Nat → Nat → FetchResult)
    (rid dfrom dto : String) (k : Nat) :
    ∀ (r : Nat) (l : List Nat) (i : Nat),
      i + 1 < (downloadLogs fetchd rid dfrom dto k r l).length →
      (((downloadLogs fetchd rid dfrom dto k r l).getD (i + 1) dummyLog).errors.map
        SensorError.sensor_id).Sublist
        (((downloadLogs fetchd rid dfrom dto k r l).getD i dummyLog).errors.map
          SensorError.sensor_id) := by
  suffices H : ∀ (n r : Nat) (l : List Nat), k - r ≤ n → ∀ i : Nat,
      i + 1 < (downloadLogs fetchd rid dfrom dto k r l).length →
      (((downloadLogs fetchd rid dfrom dto k r l).getD (i + 1) dummyLog).errors.map
        SensorError.sensor_id).Sublist
        (((downloadLogs fetchd rid dfrom dto k r l).getD i dummyLog).errors.map
          SensorError.sensor_id) by
    exact fun r l => H (k - r) r l le_rfl
  intro n
  induction n with
  | zero =>
      intro r l hn i hi
      by_cases h1 : 0 < (download_sensors_data (fetchd r) rid dfrom dto l).errors.length
      · rw [downloadLogs_abort fetchd rid dfrom dto k r l h1 (by omega)] at hi
        simp at hi
      · rw [downloadLogs_done fetchd rid dfrom dto k r l h1] at hi
        simp at hi
  | succ m ih =>
      intro r l hn i hi
      by_cases h1 : 0 < (download_sensors_data (fetchd r) rid dfrom dto l).errors.length
      · by_cases h2 : k ≤ r
        · rw [downloadLogs_abort fetchd rid dfrom dto k r l h1 h2] at hi
          simp at hi
        · rw [downloadLogs_retry fetchd rid dfrom dto k r l h1 h2] at hi ⊢
          simp only [List.length_cons] at hi
          rcases i with _ | j
          · obtain ⟨st, tail, heq⟩ := downloadLogs_head fetchd rid dfrom dto k (r + 1)
              ((download_sensors_data (fetchd r) rid dfrom dto l).errors.map
                SensorError.sensor_id)
            rw [heq]
            simp only [List.getD_cons_succ, List.getD_cons_zero]
            exact (downloadSensorsLoop_sublist (fetchd (r + 1)) rid dfrom dto _).2
          · simp only [List.getD_cons_succ]
            exact ih (r + 1)
              ((download_sensors_data (fetchd r) rid dfrom dto l).errors.map
                SensorError.sensor_id) (by omega) j (by omega)
      · rw [downloadLogs_done fetchd rid dfrom dto k r l h1] at hi
        simp at hi

/-- When every fetch at every depth fails and the input is nonempty, the
deepest record is `aborted` and still lists every input sensor id as
errored. -/
theorem downloadLogs_allfail (fetchd : Nat → Nat → FetchResult)
    (rid dfrom dto : String) (k : Nat)
    (hf : ∀ d s n, fetchd d s ≠ FetchResult.ok n) :
    ∀ (r : Nat) (l : List Nat), l ≠ [] →
      ((downloadLogs fetchd rid dfrom dto k r l).getLastD dummyLog).status =
        "aborted" ∧
      (((downloadLogs fetchd rid dfrom dto k r l).getLastD dummyLog).errors.map
        SensorError.sensor_id) = l := by
  suffices H : ∀ (n r : Nat) (l : List Nat), k - r ≤ n → l ≠ [] →
      ((downloadLogs fetchd rid dfrom dto k r l).getLastD dummyLog).status =
        "aborted" ∧
      (((downloadLogs fetchd rid dfrom dto k r l).getLastD dummyLog).errors.map
        SensorError.sensor_id) = l by
    exact fun r l => H (k - r) r l le_rfl
  have herrs : ∀ (r : Nat) (l : List Nat),
      ((download_sensors_data (fetchd r) rid dfrom dto l).errors.map
        SensorError.sensor_id) = l :=
    fun r l => (downloadSensorsLoop_allfail (fetchd r) rid dfrom dto (hf r) l).2
  have hpos : ∀ (r : Nat) (l : List Nat), l ≠ [] →
      0 < (download_sensors_data (fetchd r) rid dfrom dto l).errors.length := by
    intro r l hl
    have hlen : ((download_sensors_data (fetchd r) rid dfrom dto l).errors.map
        SensorError.sensor_id).length = l.length := by rw [herrs]
    rw [List.length_map] at hlen
    rw [hlen]
    exact List.length_pos.mpr hl
  intro n
  induction n with
  | zero =>
      intro r l hn hl
      rw [downloadLogs_abort fetchd rid dfrom dto k r l (hpos r l hl) (by omega)]
      exact ⟨rfl, herrs r l⟩
  | succ m ih =>
      intro r l hn hl
      by_cases h2 : k ≤ r
      · rw [downloadLogs_abort fetchd rid dfrom dto k r l (hpos r l hl) h2]
        exact ⟨rfl, herrs r l⟩
      · rw [downloadLogs_retry fetchd rid dfrom dto k r l (hpos r l hl) h2]
        have hne := downloadLogs_ne_nil fetchd rid dfrom dto k (r + 1)
          ((download_sensors_data (fetchd r) rid dfrom dto l).errors.map
            SensorError.sensor_id)
        rw [List.getLastD_cons, getLastD_of_ne_nil hne _ dummyLog]
        have hrec := ih (r + 1)
          ((download_sensors_data (fetchd r) rid dfrom dto l).errors.map
            SensorError.sensor_id) (by omega) (by rw [herrs]; exact hl)
        exact ⟨hrec.1, hrec.2.trans (herrs r l)⟩

/-! ## Claim theorems about the retry orchestrator -/

/-- Rolled-up root record of `download_data_with_retries`, spelled out. -/
theorem download_data_with_retries_eq (fetchd : Nat → Nat → FetchResult)
    (sensors_id : List Nat) (dfrom dto rid : String) (k : Nat) :
    download_data_with_retries fetchd sensors_id dfrom dto rid k =
      [{ run_id := rid,
         status :=
           if ((downloadLogs fetchd rid dfrom dto k 0 sensors_id).getLastD
               dummyLog).status ≠ "aborted" then "downloaded" else "aborted",
         datetime_from := dfrom, datetime_to := dto,
         errors := ((downloadLogs fetchd rid dfrom dto k 0 sensors_id).map
           fun run => run.errors.length).sum,
         saved := ((downloadLogs fetchd rid dfrom dto k 0 sensors_id).map
           fun run => run.saved.length).sum,
         retries := ((downloadLogs fetchd rid dfrom dto k 0 sensors_id).filter
           fun run => run.status = "retrying").length,
         sensors := sensors_id,
         logs := downloadLogs fetchd rid dfrom dto k 0 sensors_id }] := rfl

/-- C2, retry termination.  For any `max_retries = k` the recursion
visits at most `k + 1` depths (one log entry per call); and when every
entity's fetch always fails on a nonempty input, the root summary has
status `"aborted"` and the deepest record still lists every input
entity as errored. -/
theorem retry_depth_bounded_allfail_aborted (fetchd : Nat → Nat → FetchResult)
    (sensors_id : List Nat) (dfrom dto rid : String) (k : Nat) :
    (downloadLogs fetchd rid dfrom dto k 0 sensors_id).length ≤ k + 1 ∧
    ((∀ d s n, fetchd d s ≠ FetchResult.ok n) → sensors_id ≠ [] →
      ∃ s, download_data_with_retries fetchd sensors_id dfrom dto rid k = [s] ∧
        s.status = "aborted" ∧
        (((downloadLogs fetchd rid dfrom dto k 0 sensors_id).getLastD
          dummyLog).errors.map SensorError.sensor_id) = sensors_id) := by
  constructor
  · simpa using downloadLogs_length_le fetchd rid dfrom dto k 0 sensors_id
  · intro hf hne
    have hlast := downloadLogs_allfail fetchd rid dfrom dto k hf 0 sensors_id hne
    refine ⟨_, download_data_with_retries_eq fetchd sensors_id dfrom dto rid k,
      ?_, hlast.2⟩
    simp only [hlast.1, ne_eq, not_true_eq_false, if_false]

/-- An oracle under which every fetch of every sensor at every depth
raises an HTTP 500. -/
def allFailFetch : Nat → Nat → FetchResult := fun _ _ => FetchResult.httpError 500

/-- Witness for `retry_depth_bounded_allfail_aborted` at `k = 2`,
sensors `[1, 2]`, all fetches failing. -/
theorem retry_depth_bounded_allfail_aborted_witness :
    ([1, 2] : List Nat) ≠ [] ∧
    ∃ s, download_data_with_retries allFailFetch [1, 2] "f" "t" "run" 2 = [s] ∧
      s.status = "aborted" ∧
      (((downloadLogs allFailFetch "run" "f" "t" 2 0 [1, 2]).getLastD
        dummyLog).errors.map SensorError.sensor_id) = [1, 2] :=
  ⟨by decide,
   (retry_depth_bounded_allfail_aborted allFailFetch [1, 2] "f" "t" "run" 2).2
     (fun _ _ _ hc => FetchResult.noConfusion hc) (by decide)⟩

/-- C5, root rollup.  The root call returns exactly one summary record;
its status is `"aborted"` iff the last depth aborted (and `"downloaded"`
otherwise, finalized to `"completed"` by `download_period_from_area`);
`retries` counts the `"retrying"` depths.  In a run whose initially
failed entities all succeed at depth 1 (with `max_retries ≥ 1`), the
rollup is `"completed"` after finalization with `retries = 1`. -/
theorem root_rollup_status (fetchd : Nat → Nat → FetchResult)
    (sensors_id : List Nat) (dfrom dto rid : String) (k : Nat) :
    ∃ s, download_data_with_retries fetchd sensors_id dfrom dto rid k = [s] ∧
      s.status =
        (if ((downloadLogs fetchd rid dfrom dto k 0 sensors_id).getLastD
            dummyLog).status = "aborted" then "aborted" else "downloaded") ∧
      (finalize_period_status s).status =
        (if ((downloadLogs fetchd rid dfrom dto k 0 sensors_id).getLastD
            dummyLog).status = "aborted" then "aborted" else "completed") ∧
      s.retries = ((downloadLogs fetchd rid dfrom dto k 0 sensors_id).filter
        fun run => run.status = "retrying").length ∧
      ((download_sensors_data (fetchd 0) rid dfrom dto sensors_id).errors ≠ [] →
        (∀ sid : Nat, ∃ nrows, fetchd 1 sid = FetchResult.ok nrows) →
        1 ≤ k →
        s.status = "downloaded" ∧ (finalize_period_status s).status = "completed" ∧
          s.retries = 1) := by
  refine ⟨_, download_data_with_retries_eq fetchd sensors_id dfrom dto rid k,
    ?_, ?_, rfl, ?_⟩
  · by_cases hx : ((downloadLogs fetchd rid dfrom dto k 0 sensors_id).getLastD
        dummyLog).status = "aborted"
    · simp [hx]
    · simp [hx]
  · by_cases hx : ((downloadLogs fetchd rid dfrom dto k 0 sensors_id).getLastD
        dummyLog).status = "aborted"
    · rw [List.getLastD_eq_getLast?] at hx
      simp [finalize_period_status, hx]
    · rw [List.getLastD_eq_getLast?] at hx
      simp [finalize_period_status, hx]
  · intro herr hsucc hk
    have h1 : 0 < (download_sensors_data (fetchd 0) rid dfrom dto
        sensors_id).errors.length := List.length_pos.mpr herr
    have hnil : (download_sensors_data (fetchd 1) rid dfrom dto
        ((download_sensors_data (fetchd 0) rid dfrom dto sensors_id).errors.map
          SensorError.sensor_id)).errors = [] :=
      downloadSensorsLoop_noErrors (fetchd 1) rid dfrom dto hsucc _
    have hL : downloadLogs fetchd rid dfrom dto k 0 sensors_id =
        [{ run_id := rid, status := "retrying",
           saved := (download_sensors_data (fetchd 0) rid dfrom dto
             sensors_id).saved,
           errors := (download_sensors_data (fetchd 0) rid dfrom dto
             sensors_id).errors,
           retries := 0 },
         { run_id := rid, status := "downloaded",
           saved := (download_sensors_data (fetchd 1) rid dfrom dto
             ((download_sensors_data (fetchd 0) rid dfrom dto
               sensors_id).errors.map SensorError.sensor_id)).saved,
           errors := (download_sensors_data (fetchd 1) rid dfrom dto
             ((download_sensors_data (fetchd 0) rid dfrom dto
               sensors_id).errors.map SensorError.sensor_id)).errors,
           retries := 1 }] := by
      rw [downloadLogs_retry fetchd rid dfrom dto k 0 sensors_id h1 (by omega),
        downloadLogs_done fetchd rid dfrom dto k 1 _ (by rw [hnil]; simp)]
    refine ⟨?_, ?_, ?_⟩
    · simp [hL]
    · simp [finalize_period_status, hL]
    · simp [hL, List.filter, hnil]

/-- An oracle where every sensor fails at depth 0 and succeeds from
depth 1 on. -/
def oneRetryFetch : Nat → Nat → FetchResult :=
  fun d _ => if d = 0 then FetchResult.httpError 502 else FetchResult.ok 1

/-- Witness for `root_rollup_status`: sensors `[3, 4]`, everything fails
once then succeeds; the rollup is completed with one retry round. -/
theorem root_rollup_status_witness :
    ∃ s, download_data_with_retries oneRetryFetch [3, 4] "f" "t" "run" 5 = [s] ∧
      s.status = "downloaded" ∧ (finalize_period_status s).status = "completed" ∧
        s.retries = 1 := by
  obtain ⟨s, hs, _, _, _, hscen⟩ :=
    root_rollup_status oneRetryFetch [3, 4] "f" "t" "run" 5
  obtain ⟨a, b, c⟩ := hscen (by decide) (fun sid => ⟨1, rfl⟩) (by decide)
  exact ⟨s, hs, a, b, c⟩

/-- C8, ordering and monotone shrinking.  Every depth's saved ids and
errored ids are order-preserving sublists of the original input (the
batch loop walks its list in order, so no reordering ever happens);
consecutive depths' errored ids shrink as sublists; and the entity list
handed to depth `d + 1` is exactly the sensor ids errored at depth `d`,
in order. -/
theorem retry_order_and_monotone (fetchd : Nat → Nat → FetchResult)
    (sensors_id : List Nat) (dfrom dto rid : String) (k : Nat) :
    (∀ e ∈ downloadLogs fetchd rid dfrom dto k 0 sensors_id,
      (e.saved.map ParquetFilename.sensor_id).Sublist sensors_id ∧
      (e.errors.map SensorError.sensor_id).Sublist sensors_id) ∧
    (∀ i : Nat, i + 1 < (downloadLogs fetchd rid dfrom dto k 0 sensors_id).length →
      (((downloadLogs fetchd rid dfrom dto k 0 sensors_id).getD (i + 1)
        dummyLog).errors.map SensorError.sensor_id).Sublist
        (((downloadLogs fetchd rid dfrom dto k 0 sensors_id).getD i
          dummyLog).errors.map SensorError.sensor_id)) ∧
    (∀ (d : Nat) (l : List Nat),
      0 < (download_sensors_data (fetchd d) rid dfrom dto l).errors.length →
      d < k →
      downloadLogs fetchd rid dfrom dto k d l =
        { run_id := rid, status := "retrying",
          saved := (download_sensors_data (fetchd d) rid dfrom dto l).saved,
          errors := (download_sensors_data (fetchd d) rid dfrom dto l).errors,
          retries := d } ::
          downloadLogs fetchd rid dfrom dto k (d + 1)
            ((download_sensors_data (fetchd d) rid dfrom dto l).errors.map
              SensorError.sensor_id)) :=
  ⟨downloadLogs_entry_sublist fetchd rid dfrom dto k 0 sensors_id,
   downloadLogs_consecutive fetchd rid dfrom dto k 0 sensors_id,
   fun d l h1 h2 => downloadLogs_retry fetchd rid dfrom dto k d l h1 (by omega)⟩

/-- An oracle where only sensor 4 fails, and only at depth 0. -/
def partialFailFetch : Nat → Nat → FetchResult :=
  fun d s => if d = 0 ∧ s = 4 then FetchResult.httpError 500 else FetchResult.ok 1

/-- Witness for `retry_order_and_monotone`: two sensors, one failing
once; exercises the shrink step and the exact depth hand-off. -/
theorem retry_order_and_monotone_witness :
    ((((downloadLogs partialFailFetch "run" "f" "t" 3 0 [3, 4]).getD 1
      dummyLog).errors.map SensorError.sensor_id).Sublist
      (((downloadLogs partialFailFetch "run" "f" "t" 3 0 [3, 4]).getD 0
        dummyLog).errors.map SensorError.sensor_id)) ∧
    downloadLogs partialFailFetch "run" "f" "t" 3 0 [3, 4] =
      { run_id := "run", status := "retrying",
        saved := (download_sensors_data (partialFailFetch 0) "run" "f" "t"
          [3, 4]).saved,
        errors := (download_sensors_data (partialFailFetch 0) "run" "f" "t"
          [3, 4]).errors,
        retries := 0 } ::
        downloadLogs partialFailFetch "run" "f" "t" 3 1
          ((download_sensors_data (partialFailFetch 0) "run" "f" "t"
            [3, 4]).errors.map SensorError.sensor_id) := by
  have hthm := retry_order_and_monotone partialFailFetch [3, 4] "f" "t" "run" 3
  have hlen : (0 : Nat) + 1 <
      (downloadLogs partialFailFetch "run" "f" "t" 3 0 [3, 4]).length := by
    rw [downloadLogs_retry partialFailFetch "run" "f" "t" 3 0 [3, 4]
      (by decide) (by decide)]
    have hpos := List.length_pos.mpr (downloadLogs_ne_nil partialFailFetch
      "run" "f" "t" 3 1 ((download_sensors_data (partialFailFetch 0) "run" "f"
        "t" [3, 4]).errors.map SensorError.sensor_id))
    simp only [List.length_cons, Nat.zero_add]
    omega
  exact ⟨hthm.2.1 0 hlen, hthm.2.2 0 [3, 4] (by decide) (by decide)⟩

/-- C10, zero-measurement sensors.  A sensor whose fetch succeeds with
zero rows (`found == 0`) lands in neither `saved` nor `errors`; hence
`len(saved) + len(errors)` is strictly below `total`, and every saved
artifact comes from a sensor that returned at least one row. -/
theorem zero_found_sensors_unaccounted (fetch1 : Nat → FetchResult)
    (rid dfrom dto : String) (sensors_id : List Nat) (s : Nat)
    (hs : fetch1 s = FetchResult.ok 0) (hmem : s ∈ sensors_id) :
    s ∉ ((download_sensors_data fetch1 rid dfrom dto sensors_id).saved.map
      ParquetFilename.sensor_id) ∧
    s ∉ ((download_sensors_data fetch1 rid dfrom dto sensors_id).errors.map
      SensorError.sensor_id) ∧
    (download_sensors_data fetch1 rid dfrom dto sensors_id).saved.length +
      (download_sensors_data fetch1 rid dfrom dto sensors_id).errors.length <
      (download_sensors_data fetch1 rid dfrom dto sensors_id).total ∧
    (∀ a ∈ (download_sensors_data fetch1 rid dfrom dto sensors_id).saved,
      ∃ n, fetch1 a.sensor_id = FetchResult.ok n ∧ 0 < n) := by
  have hskip := downloadSensorsLoop_skip_not_mem fetch1 rid dfrom dto s hs sensors_id
  have hcount := downloadSensorsLoop_count fetch1 rid dfrom dto sensors_id
  have hcp : 0 < sensors_id.countP (fun t => decide (fetch1 t = FetchResult.ok 0)) :=
    List.countP_pos_iff.mpr ⟨s, hmem, by simp [hs]⟩
  refine ⟨hskip.1, hskip.2, ?_, fun a ha =>
    (downloadSensorsLoop_saved_spec fetch1 rid dfrom dto sensors_id a ha).2⟩
  show (downloadSensorsLoop fetch1 rid dfrom dto sensors_id).1.length +
      (downloadSensorsLoop fetch1 rid dfrom dto sensors_id).2.length <
      sensors_id.length
  omega

/-- An oracle where sensor 2 succeeds with zero rows and everything else
returns three rows. -/
def zeroRowsFetch : Nat → FetchResult :=
  fun s => if s = 2 then FetchResult.ok 0 else FetchResult.ok 3

/-- Witness for `zero_found_sensors_unaccounted` at sensors `[1, 2]`,
sensor 2 returning zero rows. -/
theorem zero_found_sensors_unaccounted_witness :
    zeroRowsFetch 2 = FetchResult.ok 0 ∧ 2 ∈ ([1, 2] : List Nat) ∧
    (2 ∉ ((download_sensors_data zeroRowsFetch "run" "f" "t" [1, 2]).saved.map
        ParquetFilename.sensor_id) ∧
      2 ∉ ((download_sensors_data zeroRowsFetch "run" "f" "t" [1, 2]).errors.map
        SensorError.sensor_id) ∧
      (download_sensors_data zeroRowsFetch "run" "f" "t" [1, 2]).saved.length +
        (download_sensors_data zeroRowsFetch "run" "f" "t" [1, 2]).errors.length <
        (download_sensors_data zeroRowsFetch "run" "f" "t" [1, 2]).total ∧
      (∀ a ∈ (download_sensors_data zeroRowsFetch "run" "f" "t" [1, 2]).saved,
        ∃ n, zeroRowsFetch a.sensor_id = FetchResult.ok n ∧ 0 < n)) :=
  ⟨rfl, by decide,
   zero_found_sensors_unaccounted zeroRowsFetch "run" "f" "t" [1, 2] 2 rfl
     (by decide)⟩

/-! ## 4. Upsert merge semantics (`BigQueryClient.generate_merge_query`
and `upsert_data`, gcp.py lines 343-516)

`generate_merge_query` builds a SQL MERGE statement from the table's
column list and the merge keys.  The embedding gives that statement its
relational semantics: a row is an association list from column name to
value, where `none` is SQL NULL.  Each helper below names the query
fragment it denotes (`join_condition`, `change_condition`,
`full_update`, `refreshed_update`, the INSERT branch). -/

/-- A table row: column name to value, `none` = SQL NULL. -/
abbrev Row := List (String × Option String)

/-- Value of a column in a row; a column missing from the row reads as
NULL. -/
def getCol (r : Row) (c : String) : Option String := (r.lookup c).join

/-- `meta_columns = ["ingested_at", "updated_at", "refreshed_at"]`
(line 358). -/
def meta_columns : List String := ["ingested_at", "updated_at", "refreshed_at"]

/-- `immutable_columns = merge_keys + ["ingested_at"]` (line 359). -/
def immutable_columns (merge_keys : List String) : List String :=
  merge_keys ++ ["ingested_at"]

/-- `data_columns`: all columns that are neither merge keys nor meta
columns (lines 361-365). -/
def data_columns (all_columns merge_keys : List String) : List String :=
  all_columns.filter fun col =>
    decide (col ∉ merge_keys) && decide (col ∉ meta_columns)

/-- SQL `=` in the ON clause: NULL compares unknown, so only two
non-NULL equal values match. -/
def sqlEqVal : Option String → Option String → Bool
  | some a, some b => a == b
  | _, _ => false

/-- `join_condition`: `target.pk = staged.pk AND ...` over the merge
keys (lines 368-370). -/
def keysMatch (merge_keys : List String) (target staged : Row) : Bool :=
  merge_keys.all fun pk => sqlEqVal (getCol target pk) (getCol staged pk)

/-- SQL `x IS DISTINCT FROM y`: NULL-aware inequality. -/
def isDistinctFrom (a b : Option String) : Bool := a != b

/-- `change_condition`: `target.col IS DISTINCT FROM staged.col OR ...`
over the data columns (lines 373-377). -/
def change_condition (all_columns merge_keys : List String)
    (target staged : Row) : Bool :=
  (data_columns all_columns merge_keys).any fun col =>
    isDistinctFrom (getCol target col) (getCol staged col)

/-- Effect of `UPDATE SET target.col = staged.col` over the listed
columns: listed columns take the staged value, the rest keep theirs. -/
def updateCols (cols : List String) (target staged : Row) : Row :=
  target.map fun p => (p.1, if cols.contains p.1 then getCol staged p.1 else p.2)

/-- `full_update`: set every column except the merge keys and
`ingested_at` (lines 378-384). -/
def full_update (all_columns merge_keys : List String)
    (target staged : Row) : Row :=
  updateCols
    (all_columns.filter fun col => !(immutable_columns merge_keys).contains col)
    target staged

/-- `refreshed_update`: `target.refreshed_at = staged.refreshed_at`
only (line 387). -/
def refreshed_update (target staged : Row) : Row :=
  updateCols ["refreshed_at"] target staged

/-- The `WHEN NOT MATCHED THEN INSERT (all columns) VALUES
(staged. ...)` branch (lines 390-391): the full staged row, projected
onto the schema. -/
def insert_row (all_columns : List String) (staged : Row) : Row :=
  all_columns.map fun col => (col, getCol staged col)

/-- The two `WHEN MATCHED` branches evaluated in order (lines 398-404):
any data column distinct → full update, otherwise refreshed-only
update. -/
def matched_update (all_columns merge_keys : List String)
    (target staged : Row) : Row :=
  if change_condition all_columns merge_keys target staged then
    full_update all_columns merge_keys target staged
  else refreshed_update target staged

/-- Table-level semantics of the generated MERGE statement: every
destination row matched by a staged row (BigQuery requires that match
to be unique, enforced below by key-uniqueness of the staged rows) is
rewritten by the matched branches; unmatched destination rows are kept;
staged rows matching no destination row are inserted. -/
def apply_merge (all_columns merge_keys : List String)
    (dest staged : List Row) : List Row :=
  (dest.map fun t =>
    match staged.find? (fun s => keysMatch merge_keys t s) with
    | some s => matched_update all_columns merge_keys t s
    | none => t) ++
  ((staged.filter fun s => !(dest.any fun t => keysMatch merge_keys t s)).map
    (insert_row all_columns))

/-! ## Row-level lemmas for the merge -/

/-- Lookup through a value-rewriting map. -/
theorem lookup_map_snd (t : Row) (g : String → Option String → Option String)
    (c : String) :
    (t.map fun p => (p.1, g p.1 p.2)).lookup c = (t.lookup c).map (g c) := by
  induction t with
  | nil => rfl
  | cons p rest ih =>
      rcases p with ⟨k, v⟩
      by_cases hk : c = k
      · subst hk
        simp [List.lookup]
      · have hkb : (c == k) = false := by simpa using hk
        simp [List.lookup, hkb, ih]

/-- A column of the row's domain has a present (`isSome`) lookup. -/
theorem lookup_isSome_of_mem_fst {t : Row} {c : String}
    (h : c ∈ t.map Prod.fst) : (t.lookup c).isSome := by
  induction t with
  | nil => simp at h
  | cons p rest ih =>
      rcases p with ⟨k, v⟩
      by_cases hk : c = k
      · subst hk
        simp [List.lookup]
      · have hkb : (c == k) = false := by simpa using hk
        simp only [List.map_cons, List.mem_cons] at h
        rcases h with h | h
        · exact absurd h hk
        · simpa [List.lookup, hkb] using ih h

/-- `updateCols` on a listed, present column reads the staged value. -/
theorem getCol_updateCols_mem (cols : List String) (target staged : Row)
    (c : String) (hc : cols.contains c = true)
    (hdom : (target.lookup c).isSome) :
    getCol (updateCols cols target staged) c = getCol staged c := by
  have hmap := lookup_map_snd target
    (fun a v => if cols.contains a then getCol staged a else v) c
  rw [updateCols, getCol, hmap]
  rcases hl : target.lookup c with _ | v
  · rw [hl] at hdom
    simp at hdom
  · rw [Option.map_some', if_pos hc]
    rfl

/-- `updateCols` on an unlisted column keeps the target value. -/
theorem getCol_updateCols_not_mem (cols : List String) (target staged : Row)
    (c : String) (hc : cols.contains c = false) :
    getCol (updateCols cols target staged) c = getCol target c := by
  have hmap := lookup_map_snd target
    (fun a v => if cols.contains a then getCol staged a else v) c
  rw [updateCols, getCol, hmap]
  rcases hl : target.lookup c with _ | v
  · conv_rhs => rw [getCol]
    rw [hl]
    rfl
  · rw [Option.map_some', if_neg (by rw [hc]; exact Bool.false_ne_true)]
    conv_rhs => rw [getCol]
    rw [hl]

/-- `updateCols` keeps the row's column list. -/
theorem updateCols_fst (cols : List String) (target staged : Row) :
    (updateCols cols target staged).map Prod.fst = target.map Prod.fst := by
  simp [updateCols]

/-- The inserted row's column list is exactly the schema. -/
theorem insert_row_fst (all_columns : List String) (staged : Row) :
    (insert_row all_columns staged).map Prod.fst = all_columns := by
  rw [insert_row, List.map_map]
  show List.map id all_columns = all_columns
  exact List.map_id all_columns

/-- Reading a schema column of the inserted row gives the staged
value. -/
theorem getCol_insert_row (all_columns : List String) (staged : Row)
    (c : String) (h : c ∈ all_columns) :
    getCol (insert_row all_columns staged) c = getCol staged c := by
  induction all_columns with
  | nil => simp at h
  | cons a rest ih =>
      by_cases hc : c = a
      · subst hc
        simp [insert_row, getCol, List.lookup]
      · have hcb : (c == a) = false := by simpa using hc
        rcases List.mem_cons.mp h with h | h
        · exact absurd h hc
        · simpa [insert_row, getCol, List.lookup, hcb] using ih h

/-- `find?` returns the unique satisfying element. -/
theorem find?_eq_some_of_unique {α : Type} (p : α → Bool) (l : List α) (a : α)
    (ha : a ∈ l) (hpa : p a = true)
    (huniq : ∀ b ∈ l, p b = true → b = a) :
    l.find? p = some a := by
  induction l with
  | nil => simp at ha
  | cons x rest ih =>
      by_cases hx : p x = true
      · have : x = a := huniq x (List.mem_cons_self x rest) hx
        subst this
        simp [List.find?, hx]
      · have hxb : p x = false := by simpa using hx
        rcases List.mem_cons.mp ha with rfl | ha
        · exact absurd hpa hx
        · rw [List.find?, hxb]
          exact ih ha (fun b hb hpb => huniq b (List.mem_cons_of_mem x hb) hpb)

/-- `find?` only looks at the predicate's values on the list. -/
theorem find?_congr {α : Type} (p q : α → Bool) (l : List α)
    (h : ∀ a ∈ l, p a = q a) : l.find? p = l.find? q := by
  induction l with
  | nil => rfl
  | cons x rest ih =>
      rw [List.find?, List.find?, h x (List.mem_cons_self x rest)]
      rcases hq : q x with _ | _
      · exact ih fun a ha => h a (List.mem_cons_of_mem x ha)
      · rfl

/-- Membership in `immutable_columns` spelled out. -/
theorem mem_immutable_columns (merge_keys : List String) (c : String) :
    c ∈ immutable_columns merge_keys ↔ c ∈ merge_keys ∨ c = "ingested_at" := by
  simp [immutable_columns]

/-- Membership in `data_columns` spelled out. -/
theorem mem_data_columns (all_columns merge_keys : List String) (c : String) :
    c ∈ data_columns all_columns merge_keys ↔
      c ∈ all_columns ∧ c ∉ merge_keys ∧ c ∉ meta_columns := by
  simp [data_columns, and_assoc]

/-- `contains` agrees with membership. -/
theorem contains_true_iff (l : List String) (c : String) :
    l.contains c = true ↔ c ∈ l := by simp

/-- `contains` is `false` exactly off the list. -/
theorem contains_false_iff (l : List String) (c : String) :
    l.contains c = false ↔ c ∉ l := by simp

/-- Bool congruence for `List.all`. -/
theorem all_congr_of_eq {α : Type} (p q : α → Bool) (l : List α)
    (h : ∀ a ∈ l, p a = q a) : l.all p = l.all q := by
  induction l with
  | nil => rfl
  | cons x rest ih =>
      rw [List.all_cons, List.all_cons, h x (List.mem_cons_self x rest),
        ih fun a ha => h a (List.mem_cons_of_mem x ha)]

/-- A matched SQL equality means equal (non-NULL) values. -/
theorem eq_of_sqlEqVal {a b : Option String} (h : sqlEqVal a b = true) :
    a = b := by
  cases a with
  | none => simp [sqlEqVal] at h
  | some x =>
      cases b with
      | none => simp [sqlEqVal] at h
      | some y => simpa [sqlEqVal] using h

/-- `keysMatch` spelled out column by column. -/
theorem keysMatch_iff (merge_keys : List String) (target staged : Row) :
    keysMatch merge_keys target staged = true ↔
      ∀ pk ∈ merge_keys,
        sqlEqVal (getCol target pk) (getCol staged pk) = true := by
  rw [keysMatch, List.all_eq_true]

/-- Matching rows have equal key tuples. -/
theorem keyTuple_eq_of_keysMatch (merge_keys : List String) (target staged : Row)
    (h : keysMatch merge_keys target staged = true) :
    merge_keys.map (getCol target) = merge_keys.map (getCol staged) :=
  List.map_congr_left fun pk hpk =>
    eq_of_sqlEqVal ((keysMatch_iff merge_keys target staged).mp h pk hpk)

/-- `keysMatch` only reads the key columns of the target side. -/
theorem keysMatch_congr_left (merge_keys : List String) (t2 t s : Row)
    (h : ∀ pk ∈ merge_keys, getCol t2 pk = getCol t pk) :
    keysMatch merge_keys t2 s = keysMatch merge_keys t s :=
  all_congr_of_eq _ _ merge_keys fun pk hpk => by rw [h pk hpk]

/-- The matched branches never touch a merge-key column (keys sit in
`immutable_columns`, and `refreshed_update` touches only
`refreshed_at`, which is not a key). -/
theorem getCol_matched_update_key (all_columns merge_keys : List String)
    (t s0 : Row) (pk : String) (hpk : pk ∈ merge_keys)
    (hrefr : "refreshed_at" ∉ merge_keys) :
    getCol (matched_update all_columns merge_keys t s0) pk = getCol t pk := by
  rw [matched_update]
  by_cases hch : change_condition all_columns merge_keys t s0 = true
  · rw [if_pos hch, full_update, getCol_updateCols_not_mem]
    rw [contains_false_iff]
    intro hmemf
    have hf := List.mem_filter.mp hmemf
    have hcontains : (immutable_columns merge_keys).contains pk = true :=
      (contains_true_iff _ _).mpr ((mem_immutable_columns merge_keys pk).mpr
        (Or.inl hpk))
    rw [hcontains] at hf
    simp at hf
  · rw [if_neg hch, refreshed_update, getCol_updateCols_not_mem]
    rw [contains_false_iff]
    intro hmem
    rw [List.mem_singleton] at hmem
    exact hrefr (hmem ▸ hpk)

/-- A mutable data column of `full_update` reads the staged value. -/
theorem getCol_full_update_data (all_columns merge_keys : List String)
    (t s : Row) (c : String) (hdom : t.map Prod.fst = all_columns)
    (hc : c ∈ data_columns all_columns merge_keys) :
    getCol (full_update all_columns merge_keys t s) c = getCol s c := by
  obtain ⟨hca, hck, hcm⟩ := (mem_data_columns all_columns merge_keys c).mp hc
  rw [full_update, getCol_updateCols_mem]
  · rw [contains_true_iff, List.mem_filter]
    refine ⟨hca, ?_⟩
    have : c ∉ immutable_columns merge_keys := by
      rw [mem_immutable_columns]
      rintro (h | h)
      · exact hck h
      · exact hcm (by rw [h]; simp [meta_columns])
    rw [(contains_false_iff _ _).mpr this]
    rfl
  · exact lookup_isSome_of_mem_fst (by rw [hdom]; exact hca)

/-- A non-`refreshed_at` column of `refreshed_update` keeps the target
value. -/
theorem getCol_refreshed_update_other (t s : Row) (c : String)
    (hc : c ≠ "refreshed_at") :
    getCol (refreshed_update t s) c = getCol t c := by
  rw [refreshed_update, getCol_updateCols_not_mem]
  rw [contains_false_iff, List.mem_singleton]
  exact hc

/-- C3, merge three-way correctness.  For a destination row `t` shaped
by the schema and a staged row `s`: (a) a staged row whose key matches
no destination row is inserted in full; (b) if any data column is
distinct the matched branch sets every mutable (non-key,
non-`ingested_at`) column to the staged value and keeps the immutable
ones; (c) if no data column is distinct the matched branch touches only
`refreshed_at`, which takes the staged value. -/
theorem merge_three_way (all_columns merge_keys : List String)
    (dest staged : List Row) (t s : Row)
    (hdom : t.map Prod.fst = all_columns)
    (hrefr_mem : "refreshed_at" ∈ all_columns) :
    (s ∈ staged → (∀ t2 ∈ dest, keysMatch merge_keys t2 s = false) →
      insert_row all_columns s ∈ apply_merge all_columns merge_keys dest staged ∧
      ∀ c ∈ all_columns, getCol (insert_row all_columns s) c = getCol s c) ∧
    (change_condition all_columns merge_keys t s = true →
      matched_update all_columns merge_keys t s =
        full_update all_columns merge_keys t s ∧
      ∀ c ∈ all_columns,
        getCol (full_update all_columns merge_keys t s) c =
          if c ∈ merge_keys ∨ c = "ingested_at" then getCol t c
          else getCol s c) ∧
    (change_condition all_columns merge_keys t s = false →
      matched_update all_columns merge_keys t s = refreshed_update t s ∧
      (∀ c, c ≠ "refreshed_at" →
        getCol (refreshed_update t s) c = getCol t c) ∧
      getCol (refreshed_update t s) "refreshed_at" =
        getCol s "refreshed_at") := by
  refine ⟨?_, ?_, ?_⟩
  · intro hs hnone
    constructor
    · rw [apply_merge]
      apply List.mem_append_right
      apply List.mem_map_of_mem
      apply List.mem_filter.mpr
      refine ⟨hs, ?_⟩
      have hany : (dest.any fun t2 => keysMatch merge_keys t2 s) = false :=
        List.any_eq_false.mpr fun t2 ht2 => by rw [hnone t2 ht2]; simp
      rw [hany]
      rfl
    · exact fun c hc => getCol_insert_row all_columns s c hc
  · intro hch
    refine ⟨by rw [matched_update, if_pos hch], ?_⟩
    intro c hca
    by_cases himm : c ∈ merge_keys ∨ c = "ingested_at"
    · rw [if_pos himm, full_update, getCol_updateCols_not_mem]
      rw [contains_false_iff]
      intro hmemf
      have hf := List.mem_filter.mp hmemf
      have hcontains : (immutable_columns merge_keys).contains c = true :=
        (contains_true_iff _ _).mpr ((mem_immutable_columns merge_keys c).mpr himm)
      rw [hcontains] at hf
      simp at hf
    · rw [if_neg himm]
      push_neg at himm
      rw [full_update, getCol_updateCols_mem]
      · rw [contains_true_iff, List.mem_filter]
        refine ⟨hca, ?_⟩
        have : c ∉ immutable_columns merge_keys := by
          rw [mem_immutable_columns]
          rintro (h | h)
          · exact himm.1 h
          · exact himm.2 h
        rw [(contains_false_iff _ _).mpr this]
        rfl
      · exact lookup_isSome_of_mem_fst (by rw [hdom]; exact hca)
  · intro hch
    refine ⟨by rw [matched_update, if_neg (by rw [hch]; exact Bool.false_ne_true)],
      fun c hc => getCol_refreshed_update_other t s c hc, ?_⟩
    rw [refreshed_update, getCol_updateCols_mem]
    · rfl
    · exact lookup_isSome_of_mem_fst (by rw [hdom]; exact hrefr_mem)

/-- After one merge, every destination row matching a staged row has no
distinct data column left against it: updates copied the staged data
columns, inserts are the staged rows themselves, and key-uniqueness of
the staged input pins the matching row down. -/
theorem apply_merge_no_change (all_columns merge_keys : List String)
    (dest staged : List Row)
    (hkeys : ∀ pk ∈ merge_keys, pk ∈ all_columns)
    (hrefr : "refreshed_at" ∉ merge_keys)
    (hdom : ∀ t ∈ dest, t.map Prod.fst = all_columns)
    (huniq : (staged.map fun s2 => merge_keys.map (getCol s2)).Nodup) :
    ∀ t2 ∈ apply_merge all_columns merge_keys dest staged,
      ∀ s ∈ staged, keysMatch merge_keys t2 s = true →
        change_condition all_columns merge_keys t2 s = false := by
  intro t2 ht2 s hs hmat
  rw [apply_merge, List.mem_append] at ht2
  rcases ht2 with hmem | hmem
  · rw [List.mem_map] at hmem
    obtain ⟨t, ht, heq⟩ := hmem
    rcases hf : staged.find? (fun s2 => keysMatch merge_keys t s2) with _ | s0
    · simp only [hf] at heq
      have hnone := List.find?_eq_none.mp hf s hs
      rw [← heq] at hmat
      rw [hmat] at hnone
      simp at hnone
    · simp only [hf] at heq
      have hs0mem : s0 ∈ staged := List.mem_of_find?_eq_some hf
      have hs0p : keysMatch merge_keys t s0 = true := List.find?_some hf
      have hkeep : ∀ pk ∈ merge_keys, getCol t2 pk = getCol t pk := by
        intro pk hpk
        rw [← heq]
        exact getCol_matched_update_key all_columns merge_keys t s0 pk hpk hrefr
      have hmt : keysMatch merge_keys t s = true := by
        rw [← keysMatch_congr_left merge_keys t2 t s hkeep]
        exact hmat
      have hseq : s = s0 :=
        List.inj_on_of_nodup_map huniq hs hs0mem
          (by rw [← keyTuple_eq_of_keysMatch merge_keys t s hmt,
            keyTuple_eq_of_keysMatch merge_keys t s0 hs0p])
      subst hseq
      rw [← heq, change_condition]
      apply List.any_eq_false.mpr
      intro c hc
      have hcd := (mem_data_columns all_columns merge_keys c).mp hc
      rw [matched_update]
      by_cases hch : change_condition all_columns merge_keys t s = true
      · rw [if_pos hch,
          getCol_full_update_data all_columns merge_keys t s c (hdom t ht) hc]
        simp [isDistinctFrom]
      · rw [if_neg hch]
        have hcr : c ≠ "refreshed_at" := fun hcc =>
          hcd.2.2 (by rw [hcc]; simp [meta_columns])
        rw [getCol_refreshed_update_other t s c hcr]
        have hfalse : change_condition all_columns merge_keys t s = false :=
          Bool.eq_false_iff.mpr hch
        rw [change_condition] at hfalse
        exact List.any_eq_false.mp hfalse c hc
  · rw [List.mem_map] at hmem
    obtain ⟨s1, hs1f, heq⟩ := hmem
    have hs1 : s1 ∈ staged := (List.mem_filter.mp hs1f).1
    have hkeep : ∀ pk ∈ merge_keys, getCol t2 pk = getCol s1 pk := by
      intro pk hpk
      rw [← heq]
      exact getCol_insert_row all_columns s1 pk (hkeys pk hpk)
    have hms1 : keysMatch merge_keys s1 s = true := by
      rw [← keysMatch_congr_left merge_keys t2 s1 s hkeep]
      exact hmat
    have hseq : s = s1 :=
      List.inj_on_of_nodup_map huniq hs hs1
        (keyTuple_eq_of_keysMatch merge_keys s1 s hms1).symm
    subst hseq
    rw [← heq, change_condition]
    apply List.any_eq_false.mpr
    intro c hc
    have hcd := (mem_data_columns all_columns merge_keys c).mp hc
    rw [getCol_insert_row all_columns s c hcd.1]
    simp [isDistinctFrom]

/-- After one merge, every staged row has a matching destination row:
its old match was updated keys-intact, or it was just inserted. -/
theorem apply_merge_covers (all_columns merge_keys : List String)
    (dest staged : List Row)
    (hkeys : ∀ pk ∈ merge_keys, pk ∈ all_columns)
    (hrefr : "refreshed_at" ∉ merge_keys)
    (hnn : ∀ s ∈ staged, ∀ pk ∈ merge_keys, getCol s pk ≠ none) :
    ∀ s ∈ staged,
      ((apply_merge all_columns merge_keys dest staged).any
        fun t2 => keysMatch merge_keys t2 s) = true := by
  intro s hs
  by_cases hd : (dest.any fun t => keysMatch merge_keys t s) = true
  · obtain ⟨t, ht, hts⟩ := List.any_eq_true.mp hd
    apply List.any_eq_true.mpr
    refine ⟨match staged.find? (fun s2 => keysMatch merge_keys t s2) with
      | some s0 => matched_update all_columns merge_keys t s0
      | none => t, ?_, ?_⟩
    · rw [apply_merge]
      exact List.mem_append_left _ (List.mem_map_of_mem _ ht)
    · rcases hf : staged.find? (fun s2 => keysMatch merge_keys t s2) with _ | s0
      · simp only [hf]
        exact hts
      · simp only [hf]
        have hkeep : ∀ pk ∈ merge_keys,
            getCol (matched_update all_columns merge_keys t s0) pk =
              getCol t pk :=
          fun pk hpk =>
            getCol_matched_update_key all_columns merge_keys t s0 pk hpk hrefr
        rw [keysMatch_congr_left merge_keys _ t s hkeep]
        exact hts
  · apply List.any_eq_true.mpr
    refine ⟨insert_row all_columns s, ?_, ?_⟩
    · rw [apply_merge]
      apply List.mem_append_right
      apply List.mem_map_of_mem
      apply List.mem_filter.mpr
      refine ⟨hs, ?_⟩
      rw [Bool.eq_false_iff.mpr hd]
      rfl
    · apply (keysMatch_iff merge_keys _ s).mpr
      intro pk hpk
      rw [getCol_insert_row all_columns s pk (hkeys pk hpk)]
      rcases hv : getCol s pk with _ | v
      · exact absurd hv (hnn s hs pk hpk)
      · simp [sqlEqVal]

/-- C4, merge idempotence.  Re-applying the merge with the same staged
data (staged rows carrying non-NULL, pairwise distinct key tuples, the
destination shaped by the schema): the second application performs no
inserts, triggers no full update (no matched pair has a distinct data
column), and leaves every destination row identical except possibly the
`refreshed_at` column. -/
theorem merge_idempotent (all_columns merge_keys : List String)
    (dest staged : List Row)
    (hkeys : ∀ pk ∈ merge_keys, pk ∈ all_columns)
    (hrefr : "refreshed_at" ∉ merge_keys)
    (hdom : ∀ t ∈ dest, t.map Prod.fst = all_columns)
    (hnn : ∀ s ∈ staged, ∀ pk ∈ merge_keys, getCol s pk ≠ none)
    (huniq : (staged.map fun s2 => merge_keys.map (getCol s2)).Nodup) :
    (staged.filter fun s =>
      !((apply_merge all_columns merge_keys dest staged).any
        fun t2 => keysMatch merge_keys t2 s)) = [] ∧
    (∀ t2 ∈ apply_merge all_columns merge_keys dest staged, ∀ s ∈ staged,
      keysMatch merge_keys t2 s = true →
      change_condition all_columns merge_keys t2 s = false) ∧
    (apply_merge all_columns merge_keys
      (apply_merge all_columns merge_keys dest staged) staged).length =
      (apply_merge all_columns merge_keys dest staged).length ∧
    (∀ (i : Nat) (c : String), c ≠ "refreshed_at" →
      getCol ((apply_merge all_columns merge_keys
        (apply_merge all_columns merge_keys dest staged) staged).getD i []) c =
      getCol ((apply_merge all_columns merge_keys dest staged).getD i []) c) := by
  have hcov := apply_merge_covers all_columns merge_keys dest staged hkeys
    hrefr hnn
  have hnc := apply_merge_no_change all_columns merge_keys dest staged hkeys
    hrefr hdom huniq
  have hfilter : (staged.filter fun s =>
      !((apply_merge all_columns merge_keys dest staged).any
        fun t2 => keysMatch merge_keys t2 s)) = [] := by
    apply List.filter_eq_nil_iff.mpr
    intro s hs
    rw [hcov s hs]
    simp
  have hD2 : apply_merge all_columns merge_keys
      (apply_merge all_columns merge_keys dest staged) staged =
      (apply_merge all_columns merge_keys dest staged).map fun t2 =>
        match staged.find? (fun s => keysMatch merge_keys t2 s) with
        | some s => matched_update all_columns merge_keys t2 s
        | none => t2 := by
    conv_lhs => rw [apply_merge]
    rw [hfilter]
    simp
  refine ⟨hfilter, hnc, ?_, ?_⟩
  · rw [hD2, List.length_map]
  · intro i c hc
    rw [hD2, List.getD_eq_getElem?_getD, List.getD_eq_getElem?_getD,
      List.getElem?_map]
    rcases hgi : (apply_merge all_columns merge_keys dest staged)[i]? with _ | t2
    · rfl
    · have ht2 : t2 ∈ apply_merge all_columns merge_keys dest staged :=
        List.getElem?_mem hgi
      simp only [Option.map_some', Option.getD_some]
      show getCol (match staged.find? (fun s => keysMatch merge_keys t2 s) with
        | some s => matched_update all_columns merge_keys t2 s
        | none => t2) c = getCol t2 c
      rcases hf : staged.find? (fun s => keysMatch merge_keys t2 s) with _ | s
      · rfl
      · have hsmem := List.mem_of_find?_eq_some hf
        have hsp := List.find?_some hf
        have hchf := hnc t2 ht2 s hsmem hsp
        have hmu : matched_update all_columns merge_keys t2 s =
            refreshed_update t2 s := by
          rw [matched_update, if_neg (by rw [hchf]; exact Bool.false_ne_true)]
        show getCol (matched_update all_columns merge_keys t2 s) c = getCol t2 c
        rw [hmu]
        exact getCol_refreshed_update_other t2 s c hc

/-- Concrete schema for the witnesses: the measurement table's key,
one data column and the three meta columns. -/
def mAllCols : List String :=
  ["sensor_id", "value", "ingested_at", "updated_at", "refreshed_at"]

/-- Concrete merge keys for the witnesses. -/
def mKeys : List String := ["sensor_id"]

/-- A destination row. -/
def mTarget : Row :=
  [("sensor_id", some "1"), ("value", some "10"), ("ingested_at", some "d0"),
   ("updated_at", some "d0"), ("refreshed_at", some "d0")]

/-- A staged row with the same key and a changed `value`. -/
def mStagedChanged : Row :=
  [("sensor_id", some "1"), ("value", some "20"), ("ingested_at", some "d1"),
   ("updated_at", some "d1"), ("refreshed_at", some "d1")]

/-- A staged row identical to `mTarget` on the data columns. -/
def mStagedSame : Row :=
  [("sensor_id", some "1"), ("value", some "10"), ("ingested_at", some "d1"),
   ("updated_at", some "d0"), ("refreshed_at", some "d1")]

/-- A staged row with a key absent from the destination. -/
def mStagedNew : Row :=
  [("sensor_id", some "2"), ("value", some "30"), ("ingested_at", some "d1"),
   ("updated_at", some "d1"), ("refreshed_at", some "d1")]

/-- Witness for `merge_three_way` exercising all three branches on the
concrete rows. -/
theorem merge_three_way_witness :
    (insert_row mAllCols mStagedNew ∈
        apply_merge mAllCols mKeys [mTarget] [mStagedNew] ∧
      ∀ c ∈ mAllCols,
        getCol (insert_row mAllCols mStagedNew) c = getCol mStagedNew c) ∧
    (matched_update mAllCols mKeys mTarget mStagedChanged =
        full_update mAllCols mKeys mTarget mStagedChanged ∧
      ∀ c ∈ mAllCols,
        getCol (full_update mAllCols mKeys mTarget mStagedChanged) c =
          if c ∈ mKeys ∨ c = "ingested_at" then getCol mTarget c
          else getCol mStagedChanged c) ∧
    (matched_update mAllCols mKeys mTarget mStagedSame =
        refreshed_update mTarget mStagedSame ∧
      (∀ c, c ≠ "refreshed_at" →
        getCol (refreshed_update mTarget mStagedSame) c = getCol mTarget c) ∧
      getCol (refreshed_update mTarget mStagedSame) "refreshed_at" =
        getCol mStagedSame "refreshed_at") :=
  ⟨(merge_three_way mAllCols mKeys [mTarget] [mStagedNew] mTarget mStagedNew
      (by decide) (by decide)).1 (by decide) (by decide),
   (merge_three_way mAllCols mKeys [] [] mTarget mStagedChanged
      (by decide) (by decide)).2.1 (by decide),
   (merge_three_way mAllCols mKeys [] [] mTarget mStagedSame
      (by decide) (by decide)).2.2 (by decide)⟩

/-- Witness for `merge_idempotent` on the concrete destination and a
changed staged row. -/
theorem merge_idempotent_witness :
    (([mStagedChanged] : List Row).filter fun s =>
      !((apply_merge mAllCols mKeys [mTarget] [mStagedChanged]).any
        fun t2 => keysMatch mKeys t2 s)) = [] ∧
    (∀ t2 ∈ apply_merge mAllCols mKeys [mTarget] [mStagedChanged],
      ∀ s ∈ ([mStagedChanged] : List Row),
      keysMatch mKeys t2 s = true →
      change_condition mAllCols mKeys t2 s = false) ∧
    (apply_merge mAllCols mKeys
      (apply_merge mAllCols mKeys [mTarget] [mStagedChanged])
      [mStagedChanged]).length =
      (apply_merge mAllCols mKeys [mTarget] [mStagedChanged]).length ∧
    (∀ (i : Nat) (c : String), c ≠ "refreshed_at" →
      getCol ((apply_merge mAllCols mKeys
        (apply_merge mAllCols mKeys [mTarget] [mStagedChanged])
        [mStagedChanged]).getD i []) c =
      getCol ((apply_merge mAllCols mKeys [mTarget] [mStagedChanged]).getD
        i []) c) :=
  merge_idempotent mAllCols mKeys [mTarget] [mStagedChanged]
    (by decide) (by decide) (by decide) (by decide) (by decide)

/-! ## 5. Run-log serialization (`_safe_serialize` / `save_logs`,
helpers.py lines 306-379)

Python values that can appear in a RunLog are modelled as `PyVal`; a
DataFrame is carried as its `to_dict(orient="records")` shape (one
association list per row), a Series as its `to_dict()` shape.
`_safe_serialize` maps `PyVal` to `PyVal` exactly as the Python
function maps objects to objects; `isJsonSafe` states what the final
`json.dump` call in `save_logs` accepts without raising `TypeError`
(strings, ints, floats, bools, `None`, and lists/tuples/dicts
thereof). -/

inductive PyVal where
  | pystr (s : String)
  | pyint (n : Int)
  | pyfloat (val : String)
  | pybool (b : Bool)
  | pynone
  | pydataframe (rows : List (List (String × PyVal)))
  | pyseries (entries : List (String × PyVal))
  | pynp (v : PyVal)
  | pyexc (ty msg : String) (args : List PyVal)
  | pydatetime (iso : String)
  | pydate (iso : String)
  | pypath (p : String)
  | pydict (entries : List (String × PyVal))
  | pylist (xs : List PyVal)
  | pytuple (xs : List PyVal)
  | pyset (xs : List PyVal)
  | pyobject (objrepr : String)
deriving Repr

mutual

/-- `_safe_serialize` (lines 306-363), branch for branch:
basic types returned as is; `pd.DataFrame` → `to_dict(orient="records")`
(a list of dicts whose cell values are *not* recursed into);
`pd.Series` → `to_dict()` (values not recursed into); numpy scalars →
`.item()`; `BaseException` → a dict with `type`, `message` and the raw
`args` tuple (its elements are *not* recursed into); datetime/date →
`isoformat()`; `Path` → `str`; dict → keys stringified and values
recursed; list/tuple/set → list with elements recursed; anything else →
`str(obj)`. -/
def _safe_serialize : PyVal → PyVal
  | PyVal.pystr s => PyVal.pystr s
  | PyVal.pyint n => PyVal.pyint n
  | PyVal.pyfloat v => PyVal.pyfloat v
  | PyVal.pybool b => PyVal.pybool b
  | PyVal.pynone => PyVal.pynone
  | PyVal.pydataframe rows => PyVal.pylist (rows.map PyVal.pydict)
  | PyVal.pyseries entries => PyVal.pydict entries
  | PyVal.pynp v => v
  | PyVal.pyexc ty msg args =>
      PyVal.pydict [("type", PyVal.pystr ty), ("message", PyVal.pystr msg),
        ("args", PyVal.pytuple args)]
  | PyVal.pydatetime iso => PyVal.pystr iso
  | PyVal.pydate iso => PyVal.pystr iso
  | PyVal.pypath p => PyVal.pystr p
  | PyVal.pydict entries => PyVal.pydict (serializePairs entries)
  | PyVal.pylist xs => PyVal.pylist (serializeItems xs)
  | PyVal.pytuple xs => PyVal.pylist (serializeItems xs)
  | PyVal.pyset xs => PyVal.pylist (serializeItems xs)
  | PyVal.pyobject r => PyVal.pystr r

/-- The dict comprehension `{str(k): _safe_serialize(v) for k, v in
obj.items()}` (line 358). -/
def serializePairs : List (String × PyVal) → List (String × PyVal)
  | [] => []
  | (k, v) :: rest => (k, _safe_serialize v) :: serializePairs rest

/-- The list comprehension `[_safe_serialize(v) for v in obj]`
(line 360). -/
def serializeItems : List PyVal → List PyVal
  | [] => []
  | v :: rest => _safe_serialize v :: serializeItems rest
end

mutual

/-- What `json.dump` accepts without `TypeError`: primitives, and
lists/tuples/string-keyed dicts of accepted values.  DataFrames,
Series, numpy scalars, exceptions, datetimes, paths, sets and arbitrary
objects are all rejected. -/
def isJsonSafe : PyVal → Bool
  | PyVal.pystr _ => true
  | PyVal.pyint _ => true
  | PyVal.pyfloat _ => true
  | PyVal.pybool _ => true
  | PyVal.pynone => true
  | PyVal.pylist xs => jsonSafeItems xs
  | PyVal.pytuple xs => jsonSafeItems xs
  | PyVal.pydict entries => jsonSafePairs entries
  | _ => false

def jsonSafeItems : List PyVal → Bool
  | [] => true
  | v :: rest => isJsonSafe v && jsonSafeItems rest

def jsonSafePairs : List (String × PyVal) → Bool
  | [] => true
  | (_, v) :: rest => isJsonSafe v && jsonSafePairs rest
end

/-- The document `save_logs` hands to `json.dump` (lines 366-379):
`safe_logs = _safe_serialize(logs)`. -/
def save_logs_document (logs : PyVal) : PyVal := _safe_serialize logs

/-- A RunLog whose error payload holds the exception object recorded
by `download_sensors_data`, where that exception's `args` tuple carries
a non-primitive (tabular) value: `ValueError(df)` for a one-cell
DataFrame holding a datetime. -/
def failingLog : PyVal :=
  PyVal.pylist [PyVal.pydict [("run_id", PyVal.pystr "run"),
    ("errors", PyVal.pylist [PyVal.pydict [
      ("sensor_id", PyVal.pyint 7),
      ("error", PyVal.pyexc "ValueError" "bad frame"
        [PyVal.pydataframe
          [[("ts", PyVal.pydatetime "2024-01-01T00:00:00+00:00")]]])]])]]

/-- C9 (code level): `_safe_serialize` does *not* flatten every value.
The elements of an exception's `args` tuple are emitted raw, and so are
DataFrame/Series cell values, so the document handed to `json.dump`
can still contain non-JSON-serializable objects and the write raises
`TypeError`: on `failingLog` the serialized document is not JSON-safe,
and the same happens for a DataFrame with a datetime cell sitting in an
error payload. -/
theorem serialize_leaves_opaque_values :
    isJsonSafe (save_logs_document failingLog) = false ∧
    isJsonSafe (save_logs_document (PyVal.pylist [PyVal.pydict [("error",
      PyVal.pydataframe [[("ts",
        PyVal.pydatetime "2024-01-01T00:00:00+00:00")]])]])) = false := by
  constructor
  · rfl
  · rfl

end OpenAQPipeline
